import Mathlib

/-!
Shallow embedding of the row repair and validation engine of
`SRC/15_sr_ka_exp/csv_cleaner.py` (Karnataka budget CSV cleaner),
together with theorems checking the specification's claims about it.

Cell values are modelled as lists of characters (`Str`); rows are lists of
cells.  Python string truthiness (`if value:`) is modelled as `value ≠ []`.
-/

namespace CsvCleaner

/-- Cell values: Python `str` modelled as a list of characters. -/
abbrev Str := List Char

/-- Convert a Lean string literal to the cell representation. -/
def str (s : String) : Str := s.data

/-- A row is an ordered list of string cells. -/
abbrev Row := List Str

/-- Python `str.strip()`: drop whitespace from both ends. -/
def pstrip (l : Str) : Str :=
  ((l.dropWhile Char.isWhitespace).reverse.dropWhile Char.isWhitespace).reverse

/-- Python `str.lower()` (ASCII case fold, as used on the schema values). -/
def toLowerL (l : Str) : Str := l.map Char.toLower

/-- Python `str.upper()` (ASCII case fold, as used on descriptions). -/
def toUpperL (l : Str) : Str := l.map Char.toUpper

/-- Python `needle == hay[:len(needle)]`: `hay` begins with `needle`. -/
def ledBy : Str → Str → Bool
  | [], _ => true
  | _ :: _, [] => false
  | a :: as, b :: bs => decide (a = b) && ledBy as bs

/-- Python `needle in hay`: substring occurrence test. -/
def occursIn (needle : Str) : Str → Bool
  | [] => ledBy needle []
  | hay@(_ :: rest) => ledBy needle hay || occursIn needle rest

/-- The regular expression `NUMERIC_PATTERN = ^-?\d+(\.\d+)?$` from the
source, as a decidable full-string match. -/
def matchesNumeric (cs : Str) : Bool :=
  let body := if cs.head? = some '-' then cs.tail else cs
  let ip := body.takeWhile Char.isDigit
  let rest := body.dropWhile Char.isDigit
  decide (ip ≠ []) &&
    (rest.isEmpty ||
      match rest with
      | '.' :: ds => decide (ds ≠ []) && ds.all Char.isDigit
      | _ => false)

/-- Source `pad_code` (csv_cleaner.py lines 413-429): strip, drop `...`,
keep digit-free values unchanged, otherwise keep the digits and left-pad
with zeros up to `width`. -/
def pad_code (value : Str) (width : Nat) : Str :=
  if value = [] then []
  else
    let stripped := pstrip value
    if stripped = str "..." then []
    else
      let digits := stripped.filter Char.isDigit
      if digits = [] then stripped
      else if width ≤ digits.length then digits
      else List.replicate (width - digits.length) '0' ++ digits

/-- Number of digit characters in a cell value. -/
def digitCount (s : Str) : Nat := (s.filter Char.isDigit).length

/-- The dash-family characters treated as blank budget cells. -/
def dashChars : Str := ['-', '–', '—', '−', '‐', '‒']

/-- Characters kept by the `[^0-9.\-]` filter of `clean_financial_value`. -/
def allowedFin (c : Char) : Bool := c.isDigit || c = '.' || c = '-'

/-- Python `filtered[:first+1] + filtered[first+1:].replace(".", "")`
where `first` is the index of the first dot: keep the first dot, drop the
rest. -/
def keepFirstDot : Str → Str
  | [] => []
  | c :: rest =>
    if c = '.' then c :: rest.filter (fun d => decide (d ≠ '.'))
    else c :: keepFirstDot rest

/-- Source `clean_financial_value` (csv_cleaner.py lines 432-461). -/
def clean_financial_value (value : Str) : Str :=
  if value = [] then []
  else
    let stripped := pstrip value
    if stripped = [] ∨ stripped = str "..." then []
    else
      let normalised :=
        (stripped.filter (fun c => !c.isWhitespace)).filter (fun c => decide (c ≠ ','))
      if normalised = [] ∨ normalised.all (fun c => dashChars.contains c) then []
      else if matchesNumeric normalised then normalised
      else
        let filtered := normalised.filter allowedFin
        if !filtered.any Char.isDigit then []
        else
          let filtered2 :=
            if 1 < filtered.count '-' then
              let dropped := filtered.filter (fun c => decide (c ≠ '-'))
              if normalised.head? = some '-' then '-' :: dropped else dropped
            else filtered
          if 1 < filtered2.count '.' then keepFirstDot filtered2 else filtered2

/-- Canonical spellings for `Row_Type` (value.lower() ↦ value). -/
def ROW_TYPE_CANONICAL : List (Str × Str) :=
  [(str "data", str "Data"), (str "header", str "Header"), (str "total", str "Total")]

/-- Canonical spellings for `Row_Level` (value.lower() ↦ value). -/
def ROW_LEVEL_CANONICAL : List (Str × Str) :=
  [(str "major-head", str "Major-Head"), (str "sub-major-head", str "Sub-Major-Head"),
   (str "minor-head", str "Minor-Head"), (str "sub-head", str "Sub-Head"),
   (str "detailed-head", str "Detailed-Head"), (str "object-head", str "Object-Head")]

/-- Canonical spellings for `Vote_Charge_Marker` (value.lower() ↦ value). -/
def VOTE_CHARGE_CANONICAL : List (Str × Str) :=
  [([], []), (str "v", str "V"), (str "c", str "C")]

/-- The canonical `Row_Type` values `("Data", "Header", "Total")`. -/
def rowTypeValues : List Str := [str "Data", str "Header", str "Total"]

/-- The six canonical `Row_Level` values. -/
def rowLevelValues : List Str :=
  [str "Major-Head", str "Sub-Major-Head", str "Minor-Head",
   str "Sub-Head", str "Detailed-Head", str "Object-Head"]

/-- The four financial column names. -/
def FINANCIAL_COLUMNS : List String :=
  ["Accounts_2018_19", "Budget_2019_20", "Revised_2019_20", "Budget_2020_21"]

/-- Python `canonical_map.get(key)` on the dictionaries above. -/
def lookupCanon (m : List (Str × Str)) (k : Str) : Option Str :=
  (m.find? (fun kv => decide (kv.1 = k))).map (·.2)

/-- Issue record (dataclass `Issue`). -/
structure Issue where
  row_number : Nat
  column : String
  message : String
  code : String
  fixed : Bool := false
  severity : String := "error"
deriving DecidableEq, Repr

/-- Result of processing one row (dataclass `RowResult`). -/
structure RowResult where
  row_number : Nat
  row : Row
  changed : Bool
  issues : List Issue
deriving DecidableEq, Repr

/-- Static configuration of one `RowProcessor`: schema column list,
code-width rules and hierarchy order for one archetype. -/
structure Proc where
  schemaName : String
  schema : List String
  codeRules : List (String × Nat)
  levelOrder : List (String × String)

/-- `self.expected_cols = len(schema)`. -/
def Proc.expectedCols (p : Proc) : Nat := p.schema.length

/-- `self.column_index.get(name)`: position of a column in the schema. -/
def Proc.colIdx (p : Proc) (name : String) : Option Nat :=
  p.schema.findIdx? (fun c => decide (c = name))

/-- `self.financial_indices`: positions of the financial columns present. -/
def Proc.financialIndices (p : Proc) : List Nat :=
  FINANCIAL_COLUMNS.filterMap p.colIdx

/-- `self.row_type_idx`. -/
def Proc.rowTypeIdx (p : Proc) : Option Nat := p.colIdx "Row_Type"

/-- `self.row_level_idx`. -/
def Proc.rowLevelIdx (p : Proc) : Option Nat := p.colIdx "Row_Level"

/-- `self.vote_marker_idx`. -/
def Proc.voteMarkerIdx (p : Proc) : Option Nat := p.colIdx "Vote_Charge_Marker"

/-- `self.description_idx`. -/
def Proc.descriptionIdx (p : Proc) : Option Nat := p.colIdx "Description"

/-- Hierarchy context state: the remembered last non-empty value per code
field (`self.codes`, a dict defaulting to the empty string). -/
def Ctx := String → Str

/-- A fresh context: every code field maps to the empty string. -/
def ctxEmpty : Ctx := fun _ => []

/-- `HierarchyContext.inherit_codes`: copy remembered values into empty
cells; returns the updated row and whether any cell changed. -/
def inheritCodes (p : Proc) (c : Ctx) (row : Row) : Row × Bool :=
  p.codeRules.foldl
    (fun acc fw =>
      match p.colIdx fw.1 with
      | none => acc
      | some idx =>
        if acc.1.length ≤ idx then acc
        else if acc.1.getD idx [] = [] ∧ c fw.1 ≠ [] then
          (acc.1.set idx (c fw.1), true)
        else acc)
    (row, false)

/-- `HierarchyContext.update`: remember each non-empty (stripped) code cell. -/
def ctxUpdate (p : Proc) (c : Ctx) (row : Row) : Ctx :=
  p.codeRules.foldl
    (fun c fw =>
      match p.colIdx fw.1 with
      | none => c
      | some idx =>
        if row.length ≤ idx then c
        else
          let v := pstrip (row.getD idx [])
          if v = [] then c
          else fun g => if g = fw.1 then v else c g)
    c

/-- `HierarchyContext.infer_level`: level label of the first (finest)
field with a remembered non-empty value, or empty. -/
def ctxInferLevel (p : Proc) (c : Ctx) : Str :=
  match p.levelOrder.find? (fun fl => !(c fl.1).isEmpty) with
  | some fl => str fl.2
  | none => []

/-- `RowProcessor._preferred_drop_index`: rightmost cell that strips to
empty, else the last cell. -/
def preferredDropIndex (row : Row) : Nat :=
  match row.reverse.findIdx? (fun c => (pstrip c).isEmpty) with
  | some j => row.length - 1 - j
  | none => row.length - 1

/-- The `while len(working) > expected` loop of `_align_columns`, run with
explicit fuel (each `pop` removes exactly one cell, so the loop runs
exactly `len(row) - expected` times); also accumulates the removed
positions. -/
def dropExcessAux : Nat → Row → List Nat → Row × List Nat
  | 0, row, acc => (row, acc)
  | n + 1, row, acc =>
    let i := preferredDropIndex row
    dropExcessAux n (row.eraseIdx i) (acc ++ [i])

/-- `RowProcessor._align_columns`: returns the aligned row, the changed
flag and the recorded issues. -/
def alignColumns (p : Proc) (row : Row) (rowNumber : Nat) : Row × Bool × List Issue :=
  let originalLen := row.length
  let dropped := dropExcessAux (originalLen - p.expectedCols) row []
  let working := dropped.1
  let removedPositions := dropped.2
  let changedDrop := decide (p.expectedCols < originalLen)
  let extraIssues : List Issue :=
    if p.expectedCols < originalLen ∧ removedPositions ≠ [] then
      [{ row_number := rowNumber, column := "ALL",
         message := "Row had " ++ toString originalLen ++ " columns, expected "
           ++ toString p.expectedCols ++ ". Removed empty fields.",
         code := "EXTRA_COLUMNS_FIXED", fixed := true }]
    else if p.expectedCols < originalLen then
      [{ row_number := rowNumber, column := "ALL",
         message := "Row had " ++ toString originalLen ++ " columns, expected "
           ++ toString p.expectedCols ++ ". Trimmed trailing fields.",
         code := "EXTRA_COLUMNS_FIXED", fixed := true }]
    else []
  if working.length < p.expectedCols then
    let deficit := p.expectedCols - working.length
    (working ++ List.replicate deficit [], true,
      extraIssues ++
        [{ row_number := rowNumber, column := "ALL",
           message := "Row had " ++ toString originalLen ++ " columns, expected "
             ++ toString p.expectedCols ++ ". Padded " ++ toString deficit
             ++ " empty field(s) at end.",
           code := "MISSING_COLUMNS_FIXED", fixed := true }])
  else (working, changedDrop, extraIssues)

/-- `RowProcessor._normalise_cells`: trim each cell; a lone `...` becomes
empty. -/
def normaliseCells (row : Row) : Row × Bool :=
  let cleaned := row.map (fun cell =>
    let t := pstrip cell
    if t = str "..." then [] else t)
  (cleaned, decide (cleaned ≠ row))

/-- Loop body of `_clear_header_literals`, indexed from `i`. -/
def clearHeaderLiteralsFrom (schema : List String) : Nat → Row → Row
  | _, [] => []
  | i, cell :: rest =>
    (if cell ≠ [] ∧ toLowerL (pstrip cell) = toLowerL ((schema.getD i "").data)
     then [] else cell)
      :: clearHeaderLiteralsFrom schema (i + 1) rest

/-- `RowProcessor._clear_header_literals`: blank a cell equal (trimmed,
case-insensitively) to its own column header. -/
def clearHeaderLiterals (p : Proc) (row : Row) : Row × Bool :=
  let r := clearHeaderLiteralsFrom p.schema 0 row
  (r, decide (r ≠ row))

/-- `RowProcessor._normalise_field`: canonicalise one enum cell. -/
def normaliseField (row : Row) (idxO : Option Nat) (canon : List (Str × Str)) :
    Row × Bool :=
  match idxO with
  | none => (row, false)
  | some idx =>
    if row.length ≤ idx then (row, false)
    else
      let value := row.getD idx []
      if value = [] then (row, false)
      else
        match lookupCanon canon (toLowerL value) with
        | some c => if c ≠ [] ∧ c ≠ value then (row.set idx c, true) else (row, false)
        | none => (row, false)

/-- `RowProcessor._normalise_enums`. -/
def normaliseEnums (p : Proc) (row : Row) : Row × Bool :=
  let a := normaliseField row p.rowTypeIdx ROW_TYPE_CANONICAL
  let b := normaliseField a.1 p.rowLevelIdx ROW_LEVEL_CANONICAL
  let c := normaliseField b.1 p.voteMarkerIdx VOTE_CHARGE_CANONICAL
  (c.1, a.2 || b.2 || c.2)

/-- Position scan of `_pull_enum_from_nearby`: first nearby cell whose
lowercase value is canonical is moved into the target and blanked. -/
def pullEnumAux (row : Row) (idx : Nat) (canon : List (Str × Str)) :
    List Nat → Row × Bool
  | [] => (row, false)
  | pos :: rest =>
    if pos = idx ∨ row.length ≤ pos then pullEnumAux row idx canon rest
    else
      let candidate := row.getD pos []
      if candidate = [] then pullEnumAux row idx canon rest
      else
        match lookupCanon canon (toLowerL candidate) with
        | some c =>
          if c ≠ [] then ((row.set idx c).set pos [], true)
          else pullEnumAux row idx canon rest
        | none => pullEnumAux row idx canon rest

/-- `RowProcessor._pull_enum_from_nearby` with the default window of 2. -/
def pullEnum (row : Row) (idxO : Option Nat) (canon : List (Str × Str)) :
    Row × Bool :=
  match idxO with
  | none => (row, false)
  | some idx =>
    if row.length ≤ idx ∨ row.getD idx [] ≠ [] then (row, false)
    else
      let start := idx - 2
      let stop := min row.length (idx + 3)
      pullEnumAux row idx canon (List.range' start (stop - start))

/-- `RowProcessor._pull_enums_from_nearby`. -/
def pullEnums (p : Proc) (row : Row) : Row × Bool :=
  let a := pullEnum row p.rowTypeIdx ROW_TYPE_CANONICAL
  let b := pullEnum a.1 p.rowLevelIdx ROW_LEVEL_CANONICAL
  let c := pullEnum b.1 p.voteMarkerIdx VOTE_CHARGE_CANONICAL
  (c.1, a.2 || b.2 || c.2)

/-- `RowProcessor._is_grand_total`: trimmed, uppercased description equals
`GRAND TOTAL`. -/
def isGrandTotal (p : Proc) (row : Row) : Bool :=
  match p.descriptionIdx with
  | none => false
  | some d =>
    if row.length ≤ d then false
    else decide (toUpperL (pstrip (row.getD d [])) = str "GRAND TOTAL")

/-- `RowProcessor._pad_codes`: apply `pad_code` to every code field. -/
def padCodesRow (p : Proc) (row : Row) : Row × Bool :=
  p.codeRules.foldl
    (fun acc fw =>
      match p.colIdx fw.1 with
      | none => acc
      | some idx =>
        if acc.1.length ≤ idx then acc
        else
          let current := acc.1.getD idx []
          let padded := pad_code current fw.2
          if padded ≠ current then (acc.1.set idx padded, true) else acc)
    (row, false)

/-- `RowProcessor._clean_financial_columns`. -/
def cleanFinancialColumns (p : Proc) (row : Row) : Row × Bool :=
  p.financialIndices.foldl
    (fun acc idx =>
      if acc.1.length ≤ idx then acc
      else
        let current := acc.1.getD idx []
        let cleaned := clean_financial_value current
        if cleaned ≠ current then (acc.1.set idx cleaned, true) else acc)
    (row, false)

/-- The description cell read by `_infer_row_type` (empty when the index
is missing or out of range). -/
def descCell (p : Proc) (row : Row) : Str :=
  match p.descriptionIdx with
  | some d => if d < row.length then row.getD d [] else []
  | none => []

/-- `any(row[idx] for idx in self.financial_indices if idx < len(row) and row[idx])`. -/
def hasFinancialData (p : Proc) (row : Row) : Bool :=
  p.financialIndices.any (fun j => decide (j < row.length) && !(row.getD j []).isEmpty)

/-- `RowProcessor._infer_row_type` (csv_cleaner.py lines 766-785). -/
def inferRowType (p : Proc) (row : Row) : Row × Bool :=
  match p.rowTypeIdx with
  | none => (row, false)
  | some i =>
    if row.length ≤ i then (row, false)
    else
      let current := row.getD i []
      if current ∈ rowTypeValues then (row, false)
      else
        let description := descCell p row
        if description ≠ [] ∧ occursIn (str "total") (toLowerL description) then
          (row.set i (str "Total"), true)
        else
          (row.set i (if hasFinancialData p row then str "Data" else str "Header"), true)

/-- `RowProcessor._infer_level_from_codes`. -/
def inferLevelFromCodes (p : Proc) (row : Row) : Str :=
  match p.levelOrder.find? (fun fl =>
    match p.colIdx fl.1 with
    | none => false
    | some idx => decide (idx < row.length) && !(row.getD idx []).isEmpty) with
  | some fl => str fl.2
  | none => []

/-- `RowProcessor._infer_row_level`. -/
def inferRowLevel (p : Proc) (c : Ctx) (row : Row) : Row × Bool :=
  match p.rowLevelIdx with
  | none => (row, false)
  | some i =>
    if row.length ≤ i then (row, false)
    else
      let current := row.getD i []
      if current ∈ rowLevelValues then (row, false)
      else
        let inferred := inferLevelFromCodes p row
        if inferred ≠ [] then (row.set i inferred, true)
        else
          let fromCtx := ctxInferLevel p c
          if fromCtx ≠ [] then (row.set i fromCtx, true) else (row, false)

/-- Issue code string `f"{field.upper()}_NON_NUMERIC"` / `_WIDTH`. -/
def fieldCode (field : String) (suffix : String) : String :=
  String.mk (toUpperL field.data) ++ suffix

/-- `RowProcessor._validate` (csv_cleaner.py lines 821-894), read-only. -/
def validateRow (p : Proc) (row : Row) (rowNumber : Nat) : List Issue :=
  let rowType := match p.rowTypeIdx with
    | some i => row.getD i []
    | none => []
  let typeIssues : List Issue :=
    if rowType ∈ rowTypeValues then []
    else [{ row_number := rowNumber, column := "Row_Type",
            message := "Row_Type must be one of Data, Header, or Total",
            code := "ROW_TYPE_INVALID" }]
  let rowLevel := match p.rowLevelIdx with
    | some i => row.getD i []
    | none => []
  let levelIssues : List Issue :=
    if rowLevel ∈ rowLevelValues then []
    else [{ row_number := rowNumber, column := "Row_Level",
            message := "Row_Level must be a recognised hierarchy value",
            code := "ROW_LEVEL_INVALID" }]
  let codeIssues : List Issue :=
    p.codeRules.flatMap (fun fw =>
      match p.colIdx fw.1 with
      | none => []
      | some idx =>
        if row.length ≤ idx then []
        else
          let value := row.getD idx []
          if value = [] then []
          else if !value.all Char.isDigit then
            [{ row_number := rowNumber, column := fw.1,
               message := fw.1 ++ " contains non-numeric characters",
               code := fieldCode fw.1 "_NON_NUMERIC", fixed := false }]
          else
            let digits := value.filter Char.isDigit
            if digits.length ≠ fw.2 then
              [{ row_number := rowNumber, column := fw.1,
                 message := fw.1 ++ " has the wrong digit width after padding",
                 code := fieldCode fw.1 "_WIDTH", fixed := false }]
            else [])
  let finIssues : List Issue :=
    p.financialIndices.flatMap (fun idx =>
      if row.length ≤ idx then []
      else
        let column := p.schema.getD idx ""
        let value := row.getD idx []
        if value ≠ [] ∧ !matchesNumeric value then
          [{ row_number := rowNumber, column := column,
             message := column ++ " must contain numeric data or be blank",
             code := fieldCode column "_NON_NUMERIC" }]
        else [])
  typeIssues ++ levelIssues ++ codeIssues ++ finIssues

/-- `RowProcessor.process`: the full per-row pipeline in source order
(align → normalise → clear header literals → canonicalise enums → pull
enums → grand-total inheritance → pad codes → clean financial values →
infer Row_Type → infer Row_Level → validate). -/
def processRow (p : Proc) (c : Ctx) (raw : Row) (rowNumber : Nat) : RowResult :=
  let a := alignColumns p raw rowNumber
  let n := normaliseCells a.1
  let h := clearHeaderLiterals p n.1
  let e := normaliseEnums p h.1
  let u := pullEnums p e.1
  let g := if isGrandTotal p u.1 then inheritCodes p c u.1 else (u.1, false)
  let pc := padCodesRow p g.1
  let fc := cleanFinancialColumns p pc.1
  let it := inferRowType p fc.1
  let il := inferRowLevel p c it.1
  let issues := a.2.2 ++ validateRow p il.1 rowNumber
  { row_number := rowNumber, row := il.1,
    changed := a.2.1 || n.2 || h.2 || e.2 || u.2 || g.2 || pc.2 || fc.2 || it.2 || il.2,
    issues := issues }

/-- Per-file report (dataclass `FileReport`, counting fields only; file
paths are orchestration glue and not modelled). -/
structure FileReport where
  totalRows : Nat := 0
  cleanedRows : Nat := 0
  rowsWithChanges : Nat := 0
  issues : List Issue := []
  headerReplaced : Bool := false
deriving DecidableEq, Repr

/-- `FileReport.add_row`. -/
def addRow (rep : FileReport) (res : RowResult) : FileReport :=
  { rep with
    totalRows := rep.totalRows + 1,
    cleanedRows := rep.cleanedRows + 1,
    rowsWithChanges := rep.rowsWithChanges + (if res.changed then 1 else 0),
    issues := rep.issues ++ res.issues }

/-- The `EMPTY_FILE` issue recorded for a file with no rows at all. -/
def emptyFileIssue : Issue :=
  { row_number := 0, column := "FILE", message := "File is empty",
    code := "EMPTY_FILE", fixed := false }

/-- The `HEADER_REPLACED` warning issue. -/
def headerReplacedIssue : Issue :=
  { row_number := 1, column := "HEADER",
    message := "Header replaced with expected schema",
    code := "HEADER_REPLACED", fixed := true, severity := "warning" }

/-- `CSVFileProcessor.process_file` on already-parsed rows: returns the
file report, the rows written to the output file (`none` when no output
file is written), and the updated shared hierarchy context.  Fully blank
rows are skipped without processing, but `enumerate(rows[1:], start=2)`
still assigns them a physical row number. -/
def processFile (p : Proc) (c : Ctx) (rows : List Row) :
    FileReport × Option (List Row) × Ctx :=
  match rows with
  | [] => ({ issues := [emptyFileIssue] }, none, c)
  | header :: dataRows =>
    let schemaRow : Row := p.schema.map String.data
    let init : FileReport :=
      if header ≠ schemaRow then
        { headerReplaced := true, issues := [headerReplacedIssue] }
      else {}
    let outHeader := if header ≠ schemaRow then schemaRow else header
    let final := dataRows.enum.foldl
      (fun (st : FileReport × List Row × Ctx) iraw =>
        if iraw.2.all (fun cell => (pstrip cell).isEmpty) then st
        else
          let res := processRow p st.2.2 iraw.2 (iraw.1 + 2)
          (addRow st.1 res, st.2.1 ++ [res.row], ctxUpdate p st.2.2 res.row))
      (init, [], c)
    (final.1, some (outHeader :: final.2.1), final.2.2)

/-- `CSVFileProcessor.process_directory` on an already-sorted list of
parsed files: one shared context is created before the first file and
threaded through every file in order. -/
def processDirectory (p : Proc) (files : List (List Row)) :
    List (FileReport × Option (List Row)) :=
  (files.foldl
    (fun (st : List (FileReport × Option (List Row)) × Ctx) f =>
      let r := processFile p st.2 f
      (st.1 ++ [(r.1, r.2.1)], r.2.2))
    ([], ctxEmpty)).1

/-- The row-breakdown entries `CleaningLogger.record_file` emits for one
file report: one `(Row_Number, Has_Error)` pair for each
`row_num in range(2, report.total_rows + 2)`, with
`Has_Error` true iff that row number has at least one unfixed issue. -/
def rowBreakdown (rep : FileReport) : List (Nat × Bool) :=
  (List.range' 2 rep.totalRows).map (fun rn =>
    (rn, (rep.issues.filter (fun i => decide (i.row_number = rn))).any
      (fun i => !i.fixed)))

/-- The sub-major-head archetype: schema (schemas.py), code-width rules
and hierarchy order (csv_cleaner.py `CODE_RULES` / `HIERARCHY_LEVELS`). -/
def subMajorProc : Proc :=
  { schemaName := "sub_major_head",
    schema :=
      ["Source_Page_Number", "Volume_Number", "Demand_Number", "Major_Head_Code",
       "Major_Head_Name", "Sub_Major_Head_Code", "Sub_Major_Head_Name",
       "Full_Account_Code", "Description", "Vote_Charge_Marker", "Row_Type",
       "Row_Level", "Accounts_2018_19", "Budget_2019_20", "Revised_2019_20",
       "Budget_2020_21"],
    codeRules := [("Major_Head_Code", 4), ("Sub_Major_Head_Code", 2)],
    levelOrder := [("Sub_Major_Head_Code", "Sub-Major-Head"),
                   ("Major_Head_Code", "Major-Head")] }

/-- Build a row from string literals. -/
def mkRow (cells : List String) : Row := cells.map String.data

/-- The canonical sub-major-head header row. -/
def schemaRowSM : Row := subMajorProc.schema.map String.data

/-- A data row whose `Major_Head_Code` cell holds the mixed value `12a4`. -/
def c3row : Row := mkRow
  ["1", "", "", "12a4", "", "", "", "", "Salaries", "", "Data", "", "", "", "", ""]

/-- A file with the canonical header, a fully blank physical row at
physical row 2 and a data row at physical row 3 (which will carry an
unfixed `ROW_LEVEL_INVALID` issue). -/
def c4rows : List Row :=
  [schemaRowSM,
   mkRow ["", "", "", "", "", "", "", "", "", "", "", "", "", "", "", ""],
   mkRow ["", "", "", "", "", "", "", "", "x", "", "", "", "", "", "", ""]]

/-- `page_0001.csv`: its last data row sets `Major_Head_Code = 2401`. -/
def c5file1 : List Row :=
  [schemaRowSM,
   mkRow ["1", "", "", "2401", "Crop Husbandry", "", "", "", "Crop Husbandry",
          "", "Data", "", "10", "", "", ""]]

/-- `page_0002.csv`: its first data row has an empty `Major_Head_Code`
and `Description = "Grand Total"`. -/
def c5file2 : List Row :=
  [schemaRowSM,
   mkRow ["2", "", "", "", "", "", "", "", "Grand Total", "", "", "", "", "", "", ""]]

/-- A context remembering `Major_Head_Code = 2401`, used as a witness. -/
def ctxDemo : Ctx := fun g => if g = "Major_Head_Code" then str "2401" else []

/-- A row with no explicit `Row_Type` and a description containing
"total", used as a witness for the Row_Type inference claim. -/
def c6row : Row := mkRow
  ["1", "", "", "", "", "", "", "", "Total Establishment Charges", "", "",
   "", "", "", "", ""]

/-! ### Length preservation through the pipeline -/

theorem preferredDropIndex_lt (row : Row) (h : row ≠ []) :
    preferredDropIndex row < row.length := by
  have hpos : 0 < row.length := List.length_pos.mpr h
  unfold preferredDropIndex
  cases row.reverse.findIdx? (fun c => (pstrip c).isEmpty) with
  | none => exact Nat.sub_lt hpos Nat.one_pos
  | some j =>
    simp only
    omega

theorem dropExcessAux_length (n : Nat) (row : Row) (acc : List Nat)
    (h : n ≤ row.length) : ((dropExcessAux n row acc).1).length = row.length - n := by
  induction n generalizing row acc with
  | zero => simp [dropExcessAux]
  | succ m ih =>
    have hne : row ≠ [] := by
      intro he
      rw [he] at h
      simp at h
    have hlt : preferredDropIndex row < row.length := preferredDropIndex_lt row hne
    have herase : (row.eraseIdx (preferredDropIndex row)).length = row.length - 1 :=
      List.length_eraseIdx_of_lt hlt
    have hm : m ≤ (row.eraseIdx (preferredDropIndex row)).length := by
      rw [herase]
      exact Nat.le_sub_one_of_lt (Nat.lt_of_succ_le h)
    rw [dropExcessAux, ih _ _ hm, herase, Nat.sub_sub, Nat.add_comm]

theorem alignColumns_length (p : Proc) (row : Row) (k : Nat) :
    (alignColumns p row k).1.length = p.expectedCols := by
  unfold alignColumns
  dsimp only
  split
  next h =>
    simp only [List.length_append, List.length_replicate]
    omega
  next h =>
    by_cases hle : p.expectedCols ≤ row.length
    · rw [dropExcessAux_length _ _ _ (Nat.sub_le _ _), Nat.sub_sub_self hle]
    · have h0 : row.length - p.expectedCols = 0 := by omega
      rw [h0] at h
      simp only [dropExcessAux] at h ⊢
      omega

theorem clearHeaderLiteralsFrom_length (schema : List String) (i : Nat) (row : Row) :
    (clearHeaderLiteralsFrom schema i row).length = row.length := by
  induction row generalizing i with
  | nil => rfl
  | cons c rest ih => simp [clearHeaderLiteralsFrom, ih]

theorem normaliseField_length (row : Row) (idxO : Option Nat)
    (canon : List (Str × Str)) : (normaliseField row idxO canon).1.length = row.length := by
  unfold normaliseField
  cases idxO with
  | none => rfl
  | some idx =>
    dsimp only
    split
    · rfl
    · split
      · rfl
      · split
        · split <;> simp [List.length_set]
        · rfl

theorem pullEnumAux_length (row : Row) (idx : Nat) (canon : List (Str × Str))
    (ps : List Nat) : (pullEnumAux row idx canon ps).1.length = row.length := by
  induction ps with
  | nil => rfl
  | cons pos rest ih =>
    unfold pullEnumAux
    split
    · exact ih
    · dsimp only
      split
      · exact ih
      · split
        · split
          · simp [List.length_set]
          · exact ih
        · exact ih

theorem pullEnum_length (row : Row) (idxO : Option Nat) (canon : List (Str × Str)) :
    (pullEnum row idxO canon).1.length = row.length := by
  unfold pullEnum
  cases idxO with
  | none => rfl
  | some idx =>
    dsimp only
    split
    · rfl
    · exact pullEnumAux_length _ _ _ _

theorem inheritCodes_length (p : Proc) (c : Ctx) (row : Row) :
    (inheritCodes p c row).1.length = row.length := by
  unfold inheritCodes
  suffices h : ∀ (rules : List (String × Nat)) (st : Row × Bool),
      (rules.foldl (fun acc fw =>
        match p.colIdx fw.1 with
        | none => acc
        | some idx =>
          if acc.1.length ≤ idx then acc
          else if acc.1.getD idx [] = [] ∧ c fw.1 ≠ [] then
            (acc.1.set idx (c fw.1), true)
          else acc) st).1.length = st.1.length by
    exact h p.codeRules (row, false)
  intro rules
  induction rules with
  | nil => intro st; rfl
  | cons fw rest ih =>
    intro st
    rw [List.foldl_cons]
    cases hidx : p.colIdx fw.1 with
    | none => simpa [hidx] using ih st
    | some idx =>
      simp only [hidx]
      split
      · exact ih st
      · split
        · rw [ih]
          simp [List.length_set]
        · exact ih st

theorem padCodesRow_length (p : Proc) (row : Row) :
    (padCodesRow p row).1.length = row.length := by
  unfold padCodesRow
  suffices h : ∀ (rules : List (String × Nat)) (st : Row × Bool),
      (rules.foldl (fun acc fw =>
        match p.colIdx fw.1 with
        | none => acc
        | some idx =>
          if acc.1.length ≤ idx then acc
          else
            let current := acc.1.getD idx []
            let padded := pad_code current fw.2
            if padded ≠ current then (acc.1.set idx padded, true) else acc) st).1.length
        = st.1.length by
    exact h p.codeRules (row, false)
  intro rules
  induction rules with
  | nil => intro st; rfl
  | cons fw rest ih =>
    intro st
    rw [List.foldl_cons]
    cases hidx : p.colIdx fw.1 with
    | none => simpa [hidx] using ih st
    | some idx =>
      simp only [hidx]
      split
      · exact ih st
      · split
        · rw [ih]
          simp [List.length_set]
        · exact ih st

theorem cleanFinancialColumns_length (p : Proc) (row : Row) :
    (cleanFinancialColumns p row).1.length = row.length := by
  unfold cleanFinancialColumns
  suffices h : ∀ (ids : List Nat) (st : Row × Bool),
      (ids.foldl (fun acc idx =>
        if acc.1.length ≤ idx then acc
        else
          let current := acc.1.getD idx []
          let cleaned := clean_financial_value current
          if cleaned ≠ current then (acc.1.set idx cleaned, true) else acc) st).1.length
        = st.1.length by
    exact h p.financialIndices (row, false)
  intro ids
  induction ids with
  | nil => intro st; rfl
  | cons idx rest ih =>
    intro st
    rw [List.foldl_cons]
    split
    · exact ih st
    · dsimp only
      split
      · rw [ih]
        simp [List.length_set]
      · exact ih st

theorem inferRowType_length (p : Proc) (row : Row) :
    (inferRowType p row).1.length = row.length := by
  unfold inferRowType
  cases p.rowTypeIdx with
  | none => rfl
  | some i =>
    dsimp only
    split
    · rfl
    · split
      · rfl
      · split
        · simp [List.length_set]
        · simp [List.length_set]

theorem inferRowLevel_length (p : Proc) (c : Ctx) (row : Row) :
    (inferRowLevel p c row).1.length = row.length := by
  unfold inferRowLevel
  cases p.rowLevelIdx with
  | none => rfl
  | some i =>
    dsimp only
    split
    · rfl
    · split
      · rfl
      · split
        · simp [List.length_set]
        · split
          · simp [List.length_set]
          · rfl

theorem normaliseCells_length (row : Row) :
    (normaliseCells row).1.length = row.length := by
  simp [normaliseCells]

theorem clearHeaderLiterals_length (p : Proc) (row : Row) :
    (clearHeaderLiterals p row).1.length = row.length :=
  clearHeaderLiteralsFrom_length p.schema 0 row

theorem normaliseEnums_length (p : Proc) (row : Row) :
    (normaliseEnums p row).1.length = row.length := by
  unfold normaliseEnums
  dsimp only
  rw [normaliseField_length, normaliseField_length, normaliseField_length]

theorem pullEnums_length (p : Proc) (row : Row) :
    (pullEnums p row).1.length = row.length := by
  unfold pullEnums
  dsimp only
  rw [pullEnum_length, pullEnum_length, pullEnum_length]

theorem processRow_row_length (p : Proc) (c : Ctx) (raw : Row) (n : Nat) :
    (processRow p c raw n).row.length = p.expectedCols := by
  unfold processRow
  dsimp only
  have hg : ∀ r : Row,
      ((if isGrandTotal p r then inheritCodes p c r else (r, false)) : Row × Bool).1.length
        = r.length := by
    intro r
    by_cases hb : isGrandTotal p r
    · simp [hb, inheritCodes_length]
    · simp [hb]
  rw [inferRowLevel_length, inferRowType_length, cleanFinancialColumns_length,
      padCodesRow_length, hg, pullEnums_length, normaliseEnums_length,
      clearHeaderLiterals_length, normaliseCells_length, alignColumns_length]

/-! ### String-level helper lemmas -/

theorem pstrip_eq (l : Str) :
    pstrip l = (l.dropWhile Char.isWhitespace).rdropWhile Char.isWhitespace := rfl

theorem ws_not_digit {c : Char} (h : c.isWhitespace = true) : c.isDigit = false := by
  have h4 : ((c = ' ' ∨ c = '\t') ∨ c = '\r') ∨ c = '\n' := by
    simpa [Char.isWhitespace, Bool.or_eq_true, decide_eq_true_eq] using h
  rcases h4 with ((h1 | h1) | h1) | h1 <;> subst h1 <;> decide

theorem digit_not_ws {c : Char} (h : c.isDigit = true) : c.isWhitespace = false := by
  cases hw : c.isWhitespace with
  | false => rfl
  | true => rw [ws_not_digit hw] at h; exact absurd h (by simp)

theorem pstrip_idem (l : Str) : pstrip (pstrip l) = pstrip l := by
  rw [pstrip_eq, pstrip_eq]
  have h1 : ((l.dropWhile Char.isWhitespace).rdropWhile
      Char.isWhitespace).dropWhile Char.isWhitespace
      = (l.dropWhile Char.isWhitespace).rdropWhile Char.isWhitespace := by
    cases hrd : (l.dropWhile Char.isWhitespace).rdropWhile Char.isWhitespace with
    | nil => rfl
    | cons a t =>
      obtain ⟨s, hs⟩ :=
        List.rdropWhile_prefix Char.isWhitespace (l.dropWhile Char.isWhitespace)
      rw [hrd] at hs
      have hAeq : l.dropWhile Char.isWhitespace = a :: (t ++ s) := by
        rw [← hs]; simp
      have hAne : l.dropWhile Char.isWhitespace ≠ [] := by
        rw [hAeq]; exact List.cons_ne_nil _ _
      have hhead := List.head_dropWhile_not Char.isWhitespace l hAne
      have hha : (l.dropWhile Char.isWhitespace).head hAne = a := by
        simp [hAeq]
      rw [hha] at hhead
      rw [List.dropWhile_cons, if_neg (by simp [hhead])]
  rw [h1, List.rdropWhile_idempotent]

theorem dropWhile_eq_self_of_all {p : Char → Bool} {l : Str}
    (h : ∀ c ∈ l, p c = false) : l.dropWhile p = l := by
  cases l with
  | nil => rfl
  | cons a t =>
    have ha : p a = false := h a (by simp)
    simp [List.dropWhile_cons, ha]

theorem pstrip_eq_self_of_no_ws {l : Str}
    (h : ∀ c ∈ l, c.isWhitespace = false) : pstrip l = l := by
  unfold pstrip
  rw [dropWhile_eq_self_of_all h,
      dropWhile_eq_self_of_all (fun c hc => h c (List.mem_reverse.mp hc)),
      List.reverse_reverse]

theorem filter_dropWhile {p q : Char → Bool} (hpq : ∀ c, q c = true → p c = false)
    (l : Str) : (l.dropWhile q).filter p = l.filter p := by
  induction l with
  | nil => rfl
  | cons a t ih =>
    by_cases hq : q a
    · rw [List.dropWhile_cons, if_pos hq, ih, List.filter_cons, if_neg]
      simp [hpq a hq]
    · rw [List.dropWhile_cons, if_neg hq]

theorem filter_pstrip {p : Char → Bool} (hw : ∀ c, c.isWhitespace = true → p c = false)
    (l : Str) : (pstrip l).filter p = l.filter p := by
  unfold pstrip
  rw [List.filter_reverse, filter_dropWhile hw, List.filter_reverse,
      List.reverse_reverse, filter_dropWhile hw]

theorem digits_pstrip (l : Str) :
    (pstrip l).filter Char.isDigit = l.filter Char.isDigit :=
  filter_pstrip (fun _ hc => ws_not_digit hc) l

theorem all_of_filter (p : Char → Bool) (l : Str) : (l.filter p).all p = true := by
  rw [List.all_eq_true]
  intro c hc
  exact (List.mem_filter.mp hc).2

theorem filter_eq_self_of_all {p : Char → Bool} {l : Str} (h : l.all p = true) :
    l.filter p = l :=
  List.filter_eq_self.mpr (List.all_eq_true.mp h)

theorem all_digit_pstrip_self {l : Str} (h : l.all Char.isDigit = true) :
    pstrip l = l :=
  pstrip_eq_self_of_no_ws
    (fun c hc => digit_not_ws (List.all_eq_true.mp h c hc))

theorem all_digit_ne_dots {l : Str} (h : l.all Char.isDigit = true) :
    l ≠ str "..." := by
  intro he
  rw [he] at h
  exact absurd h (by decide)

/-! ### pad_code -/

theorem pad_code_nil (w : Nat) : pad_code [] w = [] := by
  simp [pad_code]

theorem pad_code_of_all_digits {l : Str} (h : l.all Char.isDigit = true)
    (hne : l ≠ []) {w : Nat} (hw : w ≤ l.length) : pad_code l w = l := by
  unfold pad_code
  rw [if_neg hne]
  dsimp only
  rw [all_digit_pstrip_self h, if_neg (all_digit_ne_dots h),
      filter_eq_self_of_all h, if_neg hne, if_pos hw]

theorem digitCount_eq_of_pstrip (v : Str) :
    digitCount (pstrip v) = digitCount v := by
  unfold digitCount
  rw [digits_pstrip]

/-- Claim C1: for every input row (of any length) and every archetype
configuration, the row returned by the column-alignment stage, and hence
the row emitted by the full Row Processor pipeline, has length exactly
equal to the schema length. -/
theorem claim1_emitted_rows_have_schema_length
    (p : Proc) (c : Ctx) (raw : Row) (n : Nat) :
    (alignColumns p raw n).1.length = p.schema.length ∧
    (processRow p c raw n).row.length = p.schema.length :=
  ⟨alignColumns_length p raw n, processRow_row_length p c raw n⟩

/-- Claim C7: `pad_code` is idempotent, and never reduces the number of
digit characters of its input. -/
theorem claim7_pad_code_idempotent_digit_monotone (v : Str) (w : Nat) :
    pad_code (pad_code v w) w = pad_code v w ∧
    digitCount v ≤ digitCount (pad_code v w) := by
  by_cases h0 : v = []
  · subst h0
    simp [pad_code_nil, digitCount]
  by_cases h1 : pstrip v = str "..."
  · have hv : pad_code v w = [] := by
      unfold pad_code
      rw [if_neg h0]
      dsimp only
      rw [if_pos h1]
    have hdv : digitCount v = 0 := by
      rw [← digitCount_eq_of_pstrip, h1]
      decide
    refine ⟨?_, ?_⟩
    · rw [hv]
      exact pad_code_nil w
    · rw [hdv]
      exact Nat.zero_le _
  by_cases h2 : (pstrip v).filter Char.isDigit = []
  · have hv : pad_code v w = pstrip v := by
      unfold pad_code
      rw [if_neg h0]
      dsimp only
      rw [if_neg h1, if_pos h2]
    have hdv : digitCount v = 0 := by
      unfold digitCount
      rw [← digits_pstrip, h2]
      rfl
    constructor
    · by_cases h3 : pstrip v = []
      · rw [hv, h3]
        exact pad_code_nil w
      · rw [hv]
        conv_lhs => unfold pad_code
        rw [if_neg h3]
        dsimp only
        rw [pstrip_idem, if_neg h1, if_pos h2]
    · rw [hdv]
      exact Nat.zero_le _
  by_cases h4 : w ≤ ((pstrip v).filter Char.isDigit).length
  · have hv : pad_code v w = (pstrip v).filter Char.isDigit := by
      unfold pad_code
      rw [if_neg h0]
      dsimp only
      rw [if_neg h1, if_neg h2, if_pos h4]
    have hall : ((pstrip v).filter Char.isDigit).all Char.isDigit :=
      all_of_filter _ _
    constructor
    · rw [hv]
      exact pad_code_of_all_digits hall h2 h4
    · rw [hv]
      unfold digitCount
      rw [filter_eq_self_of_all hall, ← digits_pstrip]
  · push_neg at h4
    have hv : pad_code v w =
        List.replicate (w - ((pstrip v).filter Char.isDigit).length) '0'
          ++ (pstrip v).filter Char.isDigit := by
      unfold pad_code
      rw [if_neg h0]
      dsimp only
      rw [if_neg h1, if_neg h2, if_neg (by omega)]
    have hall : (List.replicate (w - ((pstrip v).filter Char.isDigit).length) '0'
        ++ (pstrip v).filter Char.isDigit).all Char.isDigit := by
      rw [List.all_append, Bool.and_eq_true]
      refine ⟨?_, all_of_filter _ _⟩
      rw [List.all_eq_true]
      intro c hc
      rw [List.eq_of_mem_replicate hc]
      decide
    have hne : (List.replicate (w - ((pstrip v).filter Char.isDigit).length) '0'
        ++ (pstrip v).filter Char.isDigit) ≠ [] := by
      simp [h2]
    have hlen : w ≤ (List.replicate (w - ((pstrip v).filter Char.isDigit).length) '0'
        ++ (pstrip v).filter Char.isDigit).length := by
      rw [List.length_append, List.length_replicate]
      omega
    constructor
    · rw [hv]
      exact pad_code_of_all_digits hall hne hlen
    · rw [hv]
      unfold digitCount
      rw [filter_eq_self_of_all hall, ← digits_pstrip, List.length_append,
          List.length_replicate]
      omega

/-! ### clean_financial_value -/

theorem count_filter_of_pos {p : Char → Bool} {a : Char} (h : p a = true)
    (l : Str) : (l.filter p).count a = l.count a := by
  induction l with
  | nil => rfl
  | cons b t ih =>
    rw [List.filter_cons]
    by_cases hb : p b
    · rw [if_pos hb, List.count_cons, List.count_cons, ih]
    · have hab : ¬ (b == a) = true := by
        intro hab
        rw [beq_iff_eq] at hab
        subst hab
        exact hb h
      rw [if_neg hb, List.count_cons, ih, if_neg hab, Nat.add_zero]

theorem count_filter_out {a : Char} (l : Str) :
    (l.filter (fun d => decide (d ≠ a))).count a = 0 := by
  rw [List.count_eq_zero]
  intro hm
  have := (List.mem_filter.mp hm).2
  simp at this

theorem digit_ne_dot {c : Char} (h : c.isDigit = true) : c ≠ '.' := by
  intro he
  subst he
  exact absurd h (by decide)

theorem digit_ne_dash {c : Char} (h : c.isDigit = true) : c ≠ '-' := by
  intro he
  subst he
  exact absurd h (by decide)

theorem keepFirstDot_count_ne {c : Char} (hc : c ≠ '.') (l : Str) :
    (keepFirstDot l).count c = l.count c := by
  induction l with
  | nil => rfl
  | cons a t ih =>
    unfold keepFirstDot
    by_cases ha : a = '.'
    · rw [if_pos ha, List.count_cons, List.count_cons,
        count_filter_of_pos (by simpa using hc) t]
    · rw [if_neg ha, List.count_cons, List.count_cons, ih]

theorem keepFirstDot_count_dot (l : Str) : (keepFirstDot l).count '.' ≤ 1 := by
  induction l with
  | nil => simp [keepFirstDot]
  | cons a t ih =>
    unfold keepFirstDot
    by_cases ha : a = '.'
    · rw [if_pos ha, List.count_cons, count_filter_out]
      subst ha
      simp
    · rw [if_neg ha, List.count_cons, if_neg (by simpa using ha), Nat.add_zero]
      exact ih

theorem keepFirstDot_mem {a : Char} {l : Str} (h : a ∈ keepFirstDot l) : a ∈ l := by
  induction l with
  | nil => simp [keepFirstDot] at h
  | cons b t ih =>
    unfold keepFirstDot at h
    by_cases hb : b = '.'
    · rw [if_pos hb] at h
      rcases List.mem_cons.mp h with h1 | h1
      · exact h1 ▸ List.mem_cons_self b t
      · exact List.mem_cons_of_mem b (List.mem_filter.mp h1).1
    · rw [if_neg hb] at h
      rcases List.mem_cons.mp h with h1 | h1
      · exact h1 ▸ List.mem_cons_self b t
      · exact List.mem_cons_of_mem b (ih h1)

theorem mem_keepFirstDot_of_digit {c : Char} {l : Str} (hcd : c.isDigit = true)
    (hc : c ∈ l) : c ∈ keepFirstDot l := by
  induction l with
  | nil => simp at hc
  | cons b t ih =>
    unfold keepFirstDot
    rcases List.mem_cons.mp hc with h1 | h1
    · subst h1
      rw [if_neg (digit_ne_dot hcd)]
      exact List.mem_cons_self c _
    · by_cases hb : b = '.'
      · rw [if_pos hb]
        exact List.mem_cons_of_mem b
          (List.mem_filter.mpr ⟨h1, by simpa using digit_ne_dot hcd⟩)
      · rw [if_neg hb]
        exact List.mem_cons_of_mem b (ih h1)

theorem keepFirstDot_any_digit {l : Str} (h : l.any Char.isDigit = true) :
    (keepFirstDot l).any Char.isDigit = true := by
  rw [List.any_eq_true] at h ⊢
  obtain ⟨c, hc, hcd⟩ := h
  exact ⟨c, mem_keepFirstDot_of_digit hcd hc, hcd⟩

theorem digit_allowed {c : Char} (h : c.isDigit = true) : allowedFin c = true := by
  simp [allowedFin, h]

theorem count_eq_zero_of_all_digit {a : Char} (ha : a.isDigit = false) {l : Str}
    (h : l.all Char.isDigit = true) : l.count a = 0 := by
  rw [List.count_eq_zero]
  intro hm
  rw [List.all_eq_true.mp h a hm] at ha
  exact absurd ha (by simp)

theorem matchesNumeric_body_props {b : Str}
    (hip : b.takeWhile Char.isDigit ≠ [])
    (hrest : b.dropWhile Char.isDigit = [] ∨
      ∃ ds, b.dropWhile Char.isDigit = '.' :: ds ∧ ds.all Char.isDigit = true) :
    b ≠ [] ∧ b.all allowedFin = true ∧ b.any Char.isDigit = true ∧
      b.count '-' = 0 ∧ b.count '.' ≤ 1 := by
  have hsplit : b.takeWhile Char.isDigit ++ b.dropWhile Char.isDigit = b :=
    List.takeWhile_append_dropWhile Char.isDigit b
  have hipall : (b.takeWhile Char.isDigit).all Char.isDigit = true := by
    rw [List.all_eq_true]
    intro c hc
    exact List.mem_takeWhile_imp hc
  refine ⟨?_, ?_, ?_, ?_, ?_⟩
  · intro he
    rw [he] at hip
    exact hip rfl
  · rw [← hsplit, List.all_append, Bool.and_eq_true]
    constructor
    · rw [List.all_eq_true]
      intro c hc
      exact digit_allowed (List.all_eq_true.mp hipall c hc)
    · rcases hrest with h1 | ⟨ds, h1, h2⟩
      · rw [h1]
        rfl
      · rw [h1, List.all_cons, Bool.and_eq_true]
        refine ⟨by decide, ?_⟩
        rw [List.all_eq_true]
        intro c hc
        exact digit_allowed (List.all_eq_true.mp h2 c hc)
  · rw [List.any_eq_true]
    cases hip' : b.takeWhile Char.isDigit with
    | nil => exact absurd hip' hip
    | cons c cs =>
      refine ⟨c, ?_, ?_⟩
      · rw [← hsplit, hip']
        exact List.mem_append_left _ (List.mem_cons_self c cs)
      · have : c ∈ b.takeWhile Char.isDigit := by
          rw [hip']
          exact List.mem_cons_self c cs
        exact List.mem_takeWhile_imp this
  · rw [← hsplit, List.count_append,
      count_eq_zero_of_all_digit (by decide) hipall]
    rcases hrest with h1 | ⟨ds, h1, h2⟩
    · rw [h1]
      rfl
    · rw [h1, List.count_cons, count_eq_zero_of_all_digit (by decide) h2]
      decide
  · rw [← hsplit, List.count_append,
      count_eq_zero_of_all_digit (by decide) hipall]
    rcases hrest with h1 | ⟨ds, h1, h2⟩
    · rw [h1]
      decide
    · rw [h1, List.count_cons, count_eq_zero_of_all_digit (by decide) h2]
      simp

theorem matchesNumeric_props {s : Str} (h : matchesNumeric s = true) :
    s ≠ [] ∧ s.all allowedFin = true ∧ s.any Char.isDigit = true ∧
      s.count '-' ≤ 1 ∧ s.count '.' ≤ 1 := by
  unfold matchesNumeric at h
  by_cases hh : s.head? = some '-'
  · rw [if_pos hh] at h
    cases s with
    | nil => simp at hh
    | cons a t =>
      have ha : a = '-' := by simpa using hh
      subst ha
      rw [Bool.and_eq_true, Bool.or_eq_true] at h
      obtain ⟨h1, h2⟩ := h
      have hip : (t : Str).takeWhile Char.isDigit ≠ [] := by simpa using h1
      have hrest : (t : Str).dropWhile Char.isDigit = [] ∨
          ∃ ds, (t : Str).dropWhile Char.isDigit = '.' :: ds ∧
            ds.all Char.isDigit = true := by
        rcases h2 with h2 | h2
        · left
          simpa [List.isEmpty_iff] using h2
        · right
          split at h2
          next ds heq =>
            rw [Bool.and_eq_true] at h2
            exact ⟨ds, heq, h2.2⟩
          next => simp at h2
      obtain ⟨hne, hall, hany, hm, hd⟩ := matchesNumeric_body_props hip hrest
      refine ⟨by simp, ?_, ?_, ?_, ?_⟩
      · rw [List.all_cons, Bool.and_eq_true]
        exact ⟨by decide, hall⟩
      · rw [List.any_cons, Bool.or_eq_true]
        exact Or.inr hany
      · rw [List.count_cons, hm, if_pos (by decide)]
      · rw [List.count_cons, if_neg (by decide), Nat.add_zero]
        exact hd
  · rw [if_neg hh] at h
    rw [Bool.and_eq_true, Bool.or_eq_true] at h
    obtain ⟨h1, h2⟩ := h
    have hip : s.takeWhile Char.isDigit ≠ [] := by simpa using h1
    have hrest : s.dropWhile Char.isDigit = [] ∨
        ∃ ds, s.dropWhile Char.isDigit = '.' :: ds ∧ ds.all Char.isDigit = true := by
      rcases h2 with h2 | h2
      · left
        simpa [List.isEmpty_iff] using h2
      · right
        split at h2
        next ds heq =>
          rw [Bool.and_eq_true] at h2
          exact ⟨ds, heq, h2.2⟩
        next => simp at h2
    obtain ⟨hne, hall, hany, hm, hd⟩ := matchesNumeric_body_props hip hrest
    exact ⟨hne, hall, hany, by rw [hm]; decide, hd⟩

theorem ne_nil_of_any {p : Char → Bool} {l : Str} (h : l.any p = true) : l ≠ [] := by
  intro he
  subst he
  simp at h

theorem all_filter_sub {p q : Char → Bool} {l : Str} (h : l.all q = true) :
    (l.filter p).all q = true := by
  rw [List.all_eq_true] at h ⊢
  intro c hc
  exact h c (List.mem_filter.mp hc).1

theorem all_keepFirstDot {q : Char → Bool} {l : Str} (h : l.all q = true) :
    (keepFirstDot l).all q = true := by
  rw [List.all_eq_true] at h ⊢
  intro c hc
  exact h c (keepFirstDot_mem hc)

theorem any_digit_filter_ne_dash {l : Str} (h : l.any Char.isDigit = true) :
    (l.filter (fun d => decide (d ≠ '-'))).any Char.isDigit = true := by
  rw [List.any_eq_true] at h ⊢
  obtain ⟨c, hc, hcd⟩ := h
  exact ⟨c, List.mem_filter.mpr ⟨hc, by simpa using digit_ne_dash hcd⟩, hcd⟩

theorem dotStep_props {F2 : Str} (hall : F2.all allowedFin = true)
    (hany : F2.any Char.isDigit = true) (hm : F2.count '-' ≤ 1) :
    (if 1 < F2.count '.' then keepFirstDot F2 else F2) ≠ [] ∧
      (if 1 < F2.count '.' then keepFirstDot F2 else F2).all allowedFin = true ∧
      (if 1 < F2.count '.' then keepFirstDot F2 else F2).any Char.isDigit = true ∧
      (if 1 < F2.count '.' then keepFirstDot F2 else F2).count '-' ≤ 1 ∧
      (if 1 < F2.count '.' then keepFirstDot F2 else F2).count '.' ≤ 1 := by
  by_cases hd : 1 < F2.count '.'
  · rw [if_pos hd]
    have hany' := keepFirstDot_any_digit hany
    refine ⟨ne_nil_of_any hany', all_keepFirstDot hall, hany', ?_, keepFirstDot_count_dot F2⟩
    rw [keepFirstDot_count_ne (by decide) F2]
    exact hm
  · rw [if_neg hd]
    exact ⟨ne_nil_of_any hany, hall, hany, hm, by omega⟩

theorem cfv_shape (v : Str) :
    clean_financial_value v = [] ∨
      (clean_financial_value v ≠ [] ∧
       (clean_financial_value v).all allowedFin = true ∧
       (clean_financial_value v).any Char.isDigit = true ∧
       (clean_financial_value v).count '-' ≤ 1 ∧
       (clean_financial_value v).count '.' ≤ 1) := by
  unfold clean_financial_value
  by_cases h0 : v = []
  · rw [if_pos h0]
    exact Or.inl rfl
  rw [if_neg h0]
  dsimp only
  by_cases h1 : pstrip v = [] ∨ pstrip v = str "..."
  · rw [if_pos h1]
    exact Or.inl rfl
  rw [if_neg h1]
  set N := ((pstrip v).filter (fun c => !c.isWhitespace)).filter
    (fun c => decide (c ≠ ',')) with hN
  by_cases h2 : N = [] ∨ N.all (fun c => dashChars.contains c) = true
  · rw [if_pos h2]
    exact Or.inl rfl
  rw [if_neg h2]
  by_cases h3 : matchesNumeric N = true
  · rw [if_pos h3]
    exact Or.inr (matchesNumeric_props h3)
  rw [if_neg h3]
  set F := N.filter allowedFin with hF
  cases h4 : F.any Char.isDigit with
  | false =>
    rw [if_pos (by rfl)]
    exact Or.inl rfl
  | true =>
    rw [if_neg (by simp)]
    have hFall : F.all allowedFin = true := by
      rw [hF]
      exact all_of_filter _ _
    by_cases h5 : 1 < F.count '-'
    · rw [if_pos h5]
      by_cases h6 : N.head? = some '-'
      · rw [if_pos h6]
        refine Or.inr (dotStep_props ?_ ?_ ?_)
        · rw [List.all_cons, Bool.and_eq_true]
          exact ⟨by decide, all_filter_sub hFall⟩
        · rw [List.any_cons, Bool.or_eq_true]
          exact Or.inr (any_digit_filter_ne_dash h4)
        · rw [List.count_cons, count_filter_out, if_pos (by decide)]
      · rw [if_neg h6]
        refine Or.inr (dotStep_props (all_filter_sub hFall)
          (any_digit_filter_ne_dash h4) ?_)
        rw [count_filter_out]
        omega
    · rw [if_neg h5]
      exact Or.inr (dotStep_props hFall h4 (by omega))

theorem allowed_not_ws {c : Char} (h : allowedFin c = true) :
    c.isWhitespace = false := by
  have h34 : (c.isDigit = true ∨ c = '.') ∨ c = '-' := by
    unfold allowedFin at h
    simpa only [Bool.or_eq_true, decide_eq_true_eq] using h
  rcases h34 with (hd | h1) | h1
  · exact digit_not_ws hd
  · subst h1
    decide
  · subst h1
    decide

theorem allowed_ne_comma {c : Char} (h : allowedFin c = true) : c ≠ ',' := by
  intro he
  subst he
  exact absurd h (by decide)

theorem mem_dash_not_digit {c : Char} (h : c ∈ dashChars) : c.isDigit = false := by
  have h6 : c = '-' ∨ c = '–' ∨ c = '—' ∨ c = '−' ∨ c = '‐' ∨ c = '‒' := by
    simpa only [dashChars, List.mem_cons, List.not_mem_nil, or_false] using h
  rcases h6 with h1 | h1 | h1 | h1 | h1 | h1 <;> subst h1 <;> decide

theorem cfv_fixed {s : Str} (hne : s ≠ []) (hall : s.all allowedFin = true)
    (hdig : s.any Char.isDigit = true) (hm : s.count '-' ≤ 1)
    (hd : s.count '.' ≤ 1) : clean_financial_value s = s := by
  have hnws : ∀ c ∈ s, c.isWhitespace = false :=
    fun c hc => allowed_not_ws (List.all_eq_true.mp hall c hc)
  have hps : pstrip s = s := pstrip_eq_self_of_no_ws hnws
  have hdots : s ≠ str "..." := by
    intro he
    rw [he] at hdig
    exact absurd hdig (by decide)
  have hf1 : s.filter (fun c => !c.isWhitespace) = s :=
    List.filter_eq_self.mpr (fun c hc => by rw [hnws c hc]; rfl)
  have hf2 : s.filter (fun c => decide (c ≠ ',')) = s :=
    List.filter_eq_self.mpr (fun c hc => by
      simpa using allowed_ne_comma (List.all_eq_true.mp hall c hc))
  have hN : ((pstrip s).filter (fun c => !c.isWhitespace)).filter
      (fun c => decide (c ≠ ',')) = s := by
    rw [hps, hf1, hf2]
  unfold clean_financial_value
  rw [if_neg hne]
  dsimp only
  rw [if_neg (by rw [hps]; exact not_or.mpr ⟨hne, hdots⟩)]
  rw [hN]
  have hdash : ¬ (s = [] ∨ s.all (fun c => dashChars.contains c) = true) := by
    rw [not_or]
    refine ⟨hne, ?_⟩
    intro hc
    obtain ⟨c, hcm, hcd⟩ := List.any_eq_true.mp hdig
    have hmem : c ∈ dashChars := by
      have hct := List.all_eq_true.mp hc c hcm
      simpa using hct
    rw [mem_dash_not_digit hmem] at hcd
    exact absurd hcd (by simp)
  rw [if_neg hdash]
  by_cases h3 : matchesNumeric s = true
  · rw [if_pos h3]
  rw [if_neg h3]
  have hFs : s.filter allowedFin = s := filter_eq_self_of_all hall
  rw [hFs, if_neg (by rw [hdig]; simp)]
  rw [if_neg (show ¬ 1 < s.count '-' by omega)]
  rw [if_neg (show ¬ 1 < s.count '.' by omega)]

/-- Claim C2 counterexample: on input `".5"` the function returns `".5"`,
which is neither empty nor a match of `^-?\d+(\.\d+)?$`, refuting the claim
that the output always is. -/
theorem claim2_counterexample :
    ¬ (clean_financial_value (str ".5") = [] ∨
       matchesNumeric (clean_financial_value (str ".5")) = true) := by
  decide

/-- Claim C2 as amended: for every input string the result of
`clean_financial_value` is either empty, or a non-empty string made only
of digits, `-` and `.`, containing at least one digit, at most one `-`
and at most one `.` (but not necessarily matching `^-?\d+(\.\d+)?$`:
the dash may be non-leading and the dot need not be surrounded by
digits). -/
theorem claim2_amended_output_shape (v : Str) :
    clean_financial_value v = [] ∨
      (clean_financial_value v ≠ [] ∧
       (clean_financial_value v).all allowedFin = true ∧
       (clean_financial_value v).any Char.isDigit = true ∧
       (clean_financial_value v).count '-' ≤ 1 ∧
       (clean_financial_value v).count '.' ≤ 1) :=
  cfv_shape v

/-- Claim C9: `clean_financial_value` is idempotent — re-cleaning an
already-cleaned financial cell never changes it. -/
theorem claim9_clean_financial_value_idempotent (v : Str) :
    clean_financial_value (clean_financial_value v) = clean_financial_value v := by
  rcases cfv_shape v with h | ⟨hne, hall, hany, hm, hd⟩
  · rw [h]
    rfl
  · exact cfv_fixed hne hall hany hm hd

/-- Claim C10: the hierarchy context is monotone in populatedness — once
the remembered value of a code field is non-empty, `update` (the only
operation that writes to the context; `inherit_codes` and `infer_level`
only read it) never resets it to empty, because it only overwrites a
field when the row's corresponding cell is non-empty after trimming. -/
theorem claim10_context_update_monotone (p : Proc) (c : Ctx) (row : Row)
    (f : String) (h : c f ≠ []) : ctxUpdate p c row f ≠ [] := by
  unfold ctxUpdate
  suffices hgen : ∀ (rules : List (String × Nat)) (c : Ctx), c f ≠ [] →
      (rules.foldl (fun c fw =>
        match p.colIdx fw.1 with
        | none => c
        | some idx =>
          if row.length ≤ idx then c
          else
            let v := pstrip (row.getD idx [])
            if v = [] then c
            else fun g => if g = fw.1 then v else c g) c) f ≠ [] from
    hgen p.codeRules c h
  intro rules
  induction rules with
  | nil => intro c hc; exact hc
  | cons fw rest ih =>
    intro c hc
    rw [List.foldl_cons]
    apply ih
    cases hidx : p.colIdx fw.1 with
    | none => simpa [hidx] using hc
    | some idx =>
      simp only [hidx]
      split
      · exact hc
      · split
        · exact hc
        next hv =>
          by_cases hg : f = fw.1
          · simpa [hg] using hv
          · simpa [hg] using hc

/-- Witness for C10 at a concrete context and row. -/
theorem claim10_context_update_monotone_witness :
    ctxDemo "Major_Head_Code" ≠ [] ∧
    ctxUpdate subMajorProc ctxDemo (mkRow
      ["", "", "", "", "", "", "", "", "", "", "", "", "", "", "", ""])
      "Major_Head_Code" ≠ [] :=
  ⟨by decide,
   claim10_context_update_monotone subMajorProc ctxDemo _ "Major_Head_Code" (by decide)⟩

/-- Claim C8: a file with no rows at all yields a report whose only issue
is `EMPTY_FILE` at row number 0 with `fixed = false`, no output rows are
written for it, and directory processing still produces one report per
file, so the run continues with the remaining files. -/
theorem claim8_empty_file_reported_no_output (p : Proc) (c : Ctx) :
    (processFile p c []).1.issues = [emptyFileIssue] ∧
    emptyFileIssue.code = "EMPTY_FILE" ∧
    emptyFileIssue.row_number = 0 ∧
    emptyFileIssue.fixed = false ∧
    (processFile p c []).2.1 = none ∧
    ∀ files : List (List Row), (processDirectory p files).length = files.length := by
  refine ⟨rfl, rfl, rfl, rfl, rfl, ?_⟩
  intro files
  unfold processDirectory
  suffices hgen : ∀ (fs : List (List Row))
      (acc : List (FileReport × Option (List Row))) (c0 : Ctx),
      ((fs.foldl (fun st f =>
        let r := processFile p st.2 f
        (st.1 ++ [(r.1, r.2.1)], r.2.2)) (acc, c0)).1).length
        = acc.length + fs.length by
    simpa using hgen files [] ctxEmpty
  intro fs
  induction fs with
  | nil => intro acc c0; simp
  | cons f rest ih =>
    intro acc c0
    rw [List.foldl_cons]
    dsimp only
    rw [ih]
    simp
    omega

/-- Claim C6: at the inference stage, a row whose `Row_Type` cell is
already canonical is left unchanged; otherwise the row is assigned
`Total` when the description contains "total" case-insensitively, else
`Data` when some financial cell is non-empty, else `Header`. -/
theorem claim6_row_type_inference (p : Proc) (row : Row) (i : Nat)
    (hi : p.rowTypeIdx = some i) (hlen : i < row.length) :
    (row.getD i [] ∈ rowTypeValues → inferRowType p row = (row, false)) ∧
    (row.getD i [] ∉ rowTypeValues →
      inferRowType p row =
        (row.set i
          (if occursIn (str "total") (toLowerL (descCell p row)) then str "Total"
           else if hasFinancialData p row then str "Data" else str "Header"),
         true)) := by
  unfold inferRowType
  rw [hi]
  dsimp only
  rw [if_neg (by omega)]
  constructor
  · intro hmem
    rw [if_pos hmem]
  · intro hmem
    rw [if_neg hmem]
    by_cases hdesc : descCell p row = []
    · have hofalse : occursIn (str "total") (toLowerL (descCell p row)) = false := by
        rw [hdesc]
        decide
      rw [if_neg (by simp [hdesc])]
      simp [hofalse]
    · by_cases hocc : occursIn (str "total") (toLowerL (descCell p row)) = true
      · rw [if_pos ⟨hdesc, hocc⟩, if_pos hocc]
      · rw [if_neg (by rintro ⟨_, h2⟩; exact hocc h2), if_neg hocc]

/-- Witness for C6: a row with `Description = "Total Establishment
Charges"` and no explicit `Row_Type` is assigned `Row_Type = Total`. -/
theorem claim6_row_type_inference_witness :
    subMajorProc.rowTypeIdx = some 10 ∧ 10 < c6row.length ∧
    inferRowType subMajorProc c6row = (c6row.set 10 (str "Total"), true) := by
  refine ⟨by decide, by decide, ?_⟩
  have h := (claim6_row_type_inference subMajorProc c6row 10 (by decide)
    (by decide)).2 (by decide)
  rw [h]
  decide

set_option maxRecDepth 100000 in
/-- Claim C3 evaluation at the failing input: a `Major_Head_Code` cell
containing `12a4` (required width 4) is silently rewritten to `0124` by
the code-padding stage, and processing the row produces no issue at all —
in particular no `MAJOR_HEAD_CODE_NON_NUMERIC` issue — contradicting the
claim (and the `pad_code` docstring, which says non-digits are never
dropped). -/
theorem claim3_nonnumeric_code_silently_fixed :
    pad_code (str "12a4") 4 = str "0124" ∧
    (processRow subMajorProc ctxEmpty c3row 2).issues = [] ∧
    (processRow subMajorProc ctxEmpty c3row 2).row.getD 3 [] = str "0124" := by
  refine ⟨by decide, by decide, by decide⟩

set_option maxRecDepth 100000 in
/-- Claim C4 evaluation at the failing input: for a file whose physical
row 2 is fully blank and whose physical row 3 carries an unfixed
`ROW_LEVEL_INVALID` issue, the row-breakdown table contains a single
entry, numbered 2 with `Has_Error = No`; the physical data row 3 has no
entry at all and its unfixed issue is never surfaced, contradicting the
claimed one-entry-per-physical-data-row contract. -/
theorem claim4_breakdown_misaligned_by_blank_row :
    rowBreakdown (processFile subMajorProc ctxEmpty c4rows).1 = [(2, false)] ∧
    (processFile subMajorProc ctxEmpty c4rows).1.issues =
      [{ row_number := 3, column := "Row_Level",
         message := "Row_Level must be a recognised hierarchy value",
         code := "ROW_LEVEL_INVALID", fixed := false, severity := "error" }] := by
  refine ⟨by decide, by decide⟩

set_option maxRecDepth 100000 in
/-- Claim C5: processing the directory `[page_0001, page_0002]` with one
shared hierarchy context, where page_0001's last data row has
`Major_Head_Code = 2401` and page_0002's first data row has an empty
`Major_Head_Code` and `Description = "Grand Total"`, yields a cleaned
page_0002 first row whose `Major_Head_Code` is `2401`. -/
theorem claim5_grand_total_inherits_across_files :
    isGrandTotal subMajorProc ((c5file2.getD 1 []).map pstrip) = true ∧
    ((((processDirectory subMajorProc [c5file1, c5file2]).getD 1
      ({}, none)).2.getD []).getD 1 []).getD 3 [] = str "2401" := by
  refine ⟨by decide, by decide⟩

end CsvCleaner
